import Mathlib

/-!
# Verification of the AI-PDF-Analyser retrieval core

A shallow embedding of the retrieval-augmented-answer core of the
AI-PDF-Analyser repository, together with proofs about it.

Embedded source files:
* `src/lib/embeddings.ts`   — `VoyageEmbeddings` (batch embedding client)
* `src/lib/utils.ts`        — `parseContextLengthError`, `getApiKey`, key codec
* `src/lib/documentStore.ts`— `storeDocument`, `getDocument` (in-memory store)
* `src/app/api/chat/route.ts` — `SimpleVectorStore` (cosine similarity,
  similarity search), the chunking loop, the page-mention scan, reference
  extraction with highlight ranges, and the `POST` handler.

Modelling conventions:
* Document text is a `List Char` (`Str`); JavaScript numbers are modelled as
  exact reals `ℝ` (for embedding vectors and similarity scores) and exact
  rationals `ℚ` (for highlight-range arithmetic, where the source divides
  integers by 2).
* Network calls (fetch to the Voyage/OpenAI APIs, chat-model invocation) and
  `sessionStorage` are oracles supplied in an `Env`; the handler returns the
  response together with the ordered trace of network calls it made.
* Thrown JavaScript exceptions are modelled with `Except String` / `Option`;
  the route's catch-all `try/catch` is modelled by the corresponding error
  branches of the handler.
* `RecursiveCharacterTextSplitter` (the langchain text splitter) is an
  external library, not repository code; it is modelled as an explicit
  function parameter `splitPage` of the chunking loop.
-/

/-- Document text: a JavaScript string modelled as a list of characters. -/
abbrev Str := List Char

/-- Character-wise lowercasing (model of `String.prototype.toLowerCase`). -/
def lc (s : Str) : Str := s.map Char.toLower

/-- Model of the characters matched by `\s` in a JavaScript regex
(the common whitespace characters that occur in extracted PDF text). -/
def jsWs (c : Char) : Bool :=
  c = ' ' || c = '\t' || c = '\n' || c = '\r' || c = '\x0b' || c = '\x0c'

/-- `span`-style split of a leading run satisfying `p`. -/
def takeRun (p : Char → Bool) (s : Str) : Str × Str := s.span p

theorem wsSplit_dec (s : Str) (h : s.dropWhile (fun c => !jsWs c) ≠ []) :
    ((s.dropWhile (fun c => !jsWs c)).dropWhile jsWs).length < s.length := by
  induction s with
  | nil => simp at h
  | cons a t ih =>
    by_cases ha : jsWs a
    · have h1 : (t.dropWhile jsWs).length ≤ t.length :=
        (List.dropWhile_sublist _).length_le
      simp only [List.dropWhile_cons, ha]
      simp only [Bool.not_true, Bool.false_eq_true, if_false, List.dropWhile_cons, ha, if_true,
        List.length_cons]
      omega
    · simp only [List.dropWhile_cons, ha] at h ⊢
      simp only [Bool.not_false, if_true] at h ⊢
      have := ih h
      simp only [List.length_cons]
      omega

/-- Model of `str.split(/\s+/)`: tokens between maximal whitespace runs,
with an empty leading (resp. trailing) token when the string starts
(resp. ends) with whitespace, and `[""]` for the empty string. -/
def wsSplit (s : Str) : List Str :=
  let tok := s.takeWhile (fun c => !jsWs c)
  let rest := s.dropWhile (fun c => !jsWs c)
  if h : rest = [] then [tok]
  else tok :: wsSplit (rest.dropWhile jsWs)
termination_by s.length
decreasing_by
  exact wsSplit_dec s h

/-- First index at which `pat` occurs as a contiguous sublist of `hay`
(model of `String.prototype.indexOf`, `none` for `-1`). -/
def firstIdx (hay pat : Str) : Option Nat :=
  if pat.isPrefixOf hay then some 0
  else
    match hay with
    | [] => none
    | _ :: t => (firstIdx t pat).map (· + 1)

/-- Numeric value of a string of decimal digits
(model of `parseInt(digits, 10)`). -/
def digitsToNat (ds : Str) : Nat :=
  ds.foldl (fun acc c => 10 * acc + (c.toNat - '0'.toNat)) 0

/-- Join a list of words with single spaces (model of `words.join(' ')`). -/
def joinSpace : List Str → Str
  | [] => []
  | [w] => w
  | w :: ws => w ++ ' ' :: joinSpace ws

theorem firstIdx_isSome_bound (hay pat : Str) (i : Nat)
    (h : firstIdx hay pat = some i) : i + pat.length ≤ hay.length := by
  induction hay generalizing i with
  | nil =>
    rw [firstIdx] at h
    split at h
    · next hp =>
      have := List.IsPrefix.length_le (List.isPrefixOf_iff_prefix.mp hp)
      simp_all
    · exact absurd h (by simp)
  | cons a t ih =>
    rw [firstIdx] at h
    split at h
    · next hp =>
      have hlen := List.IsPrefix.length_le (List.isPrefixOf_iff_prefix.mp hp)
      have : i = 0 := by simpa using h.symm
      subst this
      simpa using hlen
    · next hp =>
      simp only [Option.map_eq_some'] at h
      obtain ⟨j, hj, rfl⟩ := h
      have := ih j hj
      simp only [List.length_cons]
      omega

/-! ## Citation extractor (`src/app/api/chat/route.ts`, lines 280–392) -/

/-- A retrieval chunk: a langchain `Document` with `pageContent` and
`metadata.pageNumber`. -/
structure ChunkDoc where
  content : Str
  pageNumber : Nat
deriving DecidableEq, Inhabited

/-- A `DocumentReference` produced for the UI (`src/types/index.ts`):
`highlightRange` is `(hlStart, hlEnd)`.  Offsets are rationals because the
source computes `contextSize / 2` on JavaScript numbers. -/
structure DocumentReference where
  pageNumber : Nat
  text : Str
  fullText : Str
  hlStart : ℚ
  hlEnd : ℚ
deriving DecidableEq

/-- Case-insensitive (`ci = true`) or exact literal match at the head of `s`;
returns the remainder on success. -/
def litMatch (ci : Bool) : Str → Str → Option Str
  | [], s => some s
  | _ :: _, [] => none
  | c :: ls, d :: ds =>
    if (if ci then d.toLower = c.toLower else d = c) then litMatch ci ls ds
    else none

/-- One page-marker pattern of the source's `pagePatterns` array:
`/\[?<lit>\s+(\d+)\]?/` with optional brackets and case-insensitivity.
Returns the captured page number and the remainder after the match. -/
def matchPagePat (ci bracketed : Bool) (lit s : Str) : Option (Nat × Str) :=
  let s1 : Option Str :=
    if bracketed then
      match s with
      | '[' :: t => some t
      | _ => none
    else some s
  match s1 with
  | none => none
  | some s2 =>
    match litMatch ci lit s2 with
    | none => none
    | some s3 =>
      let ws := s3.takeWhile jsWs
      let s4 := s3.dropWhile jsWs
      if ws = [] then none
      else
        let ds := s4.takeWhile Char.isDigit
        let s5 := s4.dropWhile Char.isDigit
        if ds = [] then none
        else
          if bracketed then
            match s5 with
            | ']' :: t => some (digitsToNat ds, t)
            | _ => none
          else some (digitsToNat ds, s5)

/-- Fuelled scan implementing the `while ((match = pattern.exec(text)))`
loop of a `/g` regex: collect every non-overlapping match left to right. -/
def scanAux (ci bracketed : Bool) (lit : Str) : Nat → Str → List Nat
  | 0, _ => []
  | _ + 1, [] => []
  | fuel + 1, c :: t =>
    match matchPagePat ci bracketed lit (c :: t) with
    | some (n, rest) => n :: scanAux ci bracketed lit fuel rest
    | none => scanAux ci bracketed lit fuel t

/-- All page numbers matched by one pattern in `s`. -/
def scanPattern (ci bracketed : Bool) (lit s : Str) : List Nat :=
  scanAux ci bracketed lit s.length s

/-- The set of page numbers mentioned in the model answer: union of the five
`pagePatterns` scans (`PAGE\s+(\d+)/gi`, `page\s+(\d+)/gi`,
`\[PAGE\s+(\d+)\]/gi`, `\[page\s+(\d+)\]/gi`, `Page\s+(\d+)/g`),
deduplicated as the source's `Set<number>`. -/
def mentionedPages (responseText : Str) : List Nat :=
  (scanPattern true false "PAGE".toList responseText ++
   scanPattern true false "page".toList responseText ++
   scanPattern true true "PAGE".toList responseText ++
   scanPattern true true "page".toList responseText ++
   scanPattern false false "Page".toList responseText).dedup

/-- Model of `String.prototype.substring` with JavaScript number arguments:
arguments are truncated to integers, clamped to `[0, length]`, and swapped
when out of order. -/
def jsSubstring (s : Str) (a b : ℚ) : Str :=
  let len : ℤ := s.length
  let ia : ℤ := max 0 (min ⌊a⌋ len)
  let ib : ℤ := max 0 (min ⌊b⌋ len)
  let lo := (min ia ib).toNat
  let hi := (max ia ib).toNat
  (s.drop lo).take (hi - lo)

/-- The source's closed stop-word list. -/
def stopWords : List Str :=
  ["what".toList, "where".toList, "when".toList, "how".toList,
   "the".toList, "this".toList, "that".toList, "with".toList]

/-- `queryWords`: lowercase the message, split on whitespace, keep words
longer than 3 characters that are not stop words. -/
def queryWords (message : Str) : List Str :=
  (wsSplit (lc message)).filter
    (fun w => decide (w.length > 3) && !(stopWords.contains w))

/-- The descending size loop `for (let size = m; size >= 3; size--)`. -/
def sizesDesc (m : Nat) : List Nat :=
  (List.range (m - 2)).map (fun j => m - j)

/-- Inner loop `for (let i = 0; i <= words.length - size; i++)`:
all phrases of `size` consecutive words joined by single spaces. -/
def phrasesOfSize (words : List Str) (size : Nat) : List Str :=
  (List.range (words.length + 1 - size)).map
    (fun i => joinSpace ((words.drop i).take size))

/-- `significantPhrases`: for messages longer than 10 characters, phrases of
3–6 consecutive words (longest size first), keeping only phrases longer
than 10 characters. -/
def significantPhrases (message : Str) : List Str :=
  if message.length > 10 then
    let words := wsSplit message
    (sizesDesc (min 6 words.length)).flatMap
      (fun size => (phrasesOfSize words size).filter (fun ph => decide (ph.length > 10)))
  else []

/-- First phrase of `significantPhrases` found (case-insensitively) in the
chunk content, with its index — the phrase loop with `break`. -/
def phraseHit (content message : Str) : Option (Str × Nat) :=
  (significantPhrases message).findSome?
    (fun ph => (firstIdx (lc content) (lc ph)).map (fun i => (ph, i)))

/-- First query word found in the lowercased chunk content, with its
index — the keyword fallback loop with `break`. -/
def keywordHit (content message : Str) : Option (Str × Nat) :=
  (queryWords message).findSome?
    (fun w => (firstIdx (lc content) w).map (fun i => (w, i)))

/-- The per-chunk reference construction of the references `.map`:
phrase match, else keyword match, else the default first-300-characters
highlight. -/
def refOf (message : Str) (doc : ChunkDoc) : DocumentReference :=
  let content := doc.content
  match phraseHit content message with
  | some (ph, idx) =>
    let contextSize : ℚ := max 100 (ph.length * 3)
    let st : ℚ := max 0 ((idx : ℚ) - contextSize / 2)
    let en : ℚ := min (content.length : ℚ) ((idx : ℚ) + ph.length + contextSize / 2)
    ⟨doc.pageNumber, jsSubstring content st en, content, st, en⟩
  | none =>
    match keywordHit content message with
    | some (w, idx) =>
      let st : ℚ := max 0 ((idx : ℚ) - 150)
      let en : ℚ := min (content.length : ℚ) ((idx : ℚ) + w.length + 150)
      ⟨doc.pageNumber, jsSubstring content st en, content, st, en⟩
    | none =>
      ⟨doc.pageNumber, content.take 150, content, 0, min (content.length : ℚ) 300⟩

/-- A fallback reference (the `topReferences` shape): first 150 characters as
display text, first 300 characters highlighted. -/
def fallbackRef (doc : ChunkDoc) : DocumentReference :=
  ⟨doc.pageNumber, doc.content.take 150, doc.content, 0,
   min (doc.content.length : ℚ) 300⟩

/-- The citation extractor: keep the retrieved chunks whose page number is
mentioned in the answer and build a reference for each; when that yields
none, fall back to the first three chunks of the ranked list. -/
def extractReferences (responseText : Str) (relevantDocs : List ChunkDoc)
    (message : Str) : List DocumentReference :=
  let mentioned := mentionedPages responseText
  let refs := (relevantDocs.filter (fun d => mentioned.contains d.pageNumber)).map
    (refOf message)
  if refs.isEmpty then (relevantDocs.take 3).map fallbackRef else refs

/-! ## SimpleVectorStore (`src/app/api/chat/route.ts`, lines 17–106) -/

/-- The dot-product accumulator of `cosineSimilarity`'s loop. -/
def dotProd (a b : List ℝ) : ℝ := (a.zip b).foldl (fun acc p => acc + p.1 * p.2) 0

/-- The squared-norm accumulator of `cosineSimilarity`'s loop. -/
def sumSq (a : List ℝ) : ℝ := a.foldl (fun acc x => acc + x * x) 0

/-- `cosineSimilarity`: throws (`none`) on length mismatch; returns `0` when
either norm is zero; otherwise `dot / (‖a‖ * ‖b‖)`.  JavaScript numbers are
modelled as exact reals. -/
noncomputable def cosineSimilarity (vecA vecB : List ℝ) : Option ℝ :=
  if vecA.length = vecB.length then
    let dot := dotProd vecA vecB
    let normA := Real.sqrt (sumSq vecA)
    let normB := Real.sqrt (sumSq vecB)
    if normA = 0 ∨ normB = 0 then some 0 else some (dot / (normA * normB))
  else none

/-- Score one indexed embedding after another against the query, propagating
a thrown length-mismatch error as `none`. -/
noncomputable def scoredSimsAux (q : List ℝ) : List (Nat × List ℝ) → Option (List (Nat × ℝ))
  | [] => some []
  | p :: ps =>
    match cosineSimilarity q p.2, scoredSimsAux q ps with
    | some s, some rest => some ((p.1, s) :: rest)
    | _, _ => none

/-- The `similarities` array: each document embedding paired with its index
and its cosine similarity to the query (`none` if any comparison throws). -/
noncomputable def scoredSims (q : List ℝ) (embs : List (List ℝ)) :
    Option (List (Nat × ℝ)) :=
  scoredSimsAux q embs.enum

/-- The ordering of the comparator `(a, b) => b.similarity - a.similarity`:
`a` sorts no later than `b` iff `a`'s score is at least `b`'s. -/
def scoreGE (a b : Nat × ℝ) : Prop := b.2 ≤ a.2

instance : IsTotal (Nat × ℝ) scoreGE := ⟨fun a b => le_total b.2 a.2⟩

instance : IsTrans (Nat × ℝ) scoreGE := ⟨fun _ _ _ hab hbc => le_trans hbc hab⟩

noncomputable instance : DecidableRel scoreGE :=
  fun a b => Real.decidableLE b.2 a.2

/-- `similaritySearch` after the query embedding is obtained: score every
stored embedding, sort descending by similarity (JavaScript's
`Array.prototype.sort` is stable, modelled by a stable insertion sort),
and return the documents of the first `k` entries. -/
noncomputable def similaritySearchRanked (docs : List ChunkDoc)
    (embs : List (List ℝ)) (q : List ℝ) (k : Nat) :
    Except String (List ChunkDoc) :=
  if embs.length = 0 then .error "No documents in vector store"
  else
    match scoredSims q embs with
    | none => .error "Vectors must have the same length"
    | some sims =>
      let sorted := List.insertionSort scoreGE sims
      .ok ((sorted.take k).map (fun p => docs.getD p.1 default))

/-! ## VoyageEmbeddings (`src/lib/embeddings.ts`) -/

/-- One element of the Voyage API response's `data` array. -/
structure VoyageDatum where
  embedding : List ℝ
  index : Nat

/-- The Voyage API response body (the fields the client reads). -/
structure VoyageResponse where
  data : List VoyageDatum

/-- The `fetch` to `https://api.voyageai.com/v1/embeddings`, as an oracle:
transport errors and non-ok statuses are collapsed into `Except.error`. -/
abbrev VoyageFetch := List Str → Except String VoyageResponse

/-- `embedTexts`: enforces the 128-text cap by throwing before any fetch;
otherwise performs exactly one fetch.  The second component counts the
underlying provider calls made. -/
def voyageEmbedTexts (fetch : VoyageFetch) (texts : List Str) :
    Except String VoyageResponse × Nat :=
  if texts.length > 128 then
    (.error "Maximum of 128 texts can be embedded at once", 0)
  else
    (fetch texts, 1)

/-- `embedDocuments`: one `embedTexts` call on the whole list, mapping each
response item to its embedding (in the response's own order). -/
def voyageEmbedDocuments (fetch : VoyageFetch) (texts : List Str) :
    Except String (List (List ℝ)) × Nat :=
  let r := voyageEmbedTexts fetch texts
  (r.1.map (fun resp => resp.data.map (fun d => d.embedding)), r.2)

/-- `embedQuery`: `embedTexts` on a singleton; reading `data[0].embedding`
of an empty `data` array is the modelled JavaScript runtime error. -/
def voyageEmbedQuery (fetch : VoyageFetch) (text : Str) :
    Except String (List ℝ) × Nat :=
  let r := voyageEmbedTexts fetch [text]
  (match r.1 with
   | .error e => .error e
   | .ok resp =>
     match resp.data.head? with
     | some d => .ok d.embedding
     | none => .error "Cannot read properties of undefined (reading 'embedding')", r.2)

/-! ## `parseContextLengthError` (`src/lib/utils.ts`, lines 137–155)

The regex `/maximum context length is (\d+) tokens.*resulted in (\d+) tokens/i`
applied with `String.prototype.match` (no `g` flag): leftmost start position
wins; `.*` is greedy and does not cross line terminators; `(\d+)` is a maximal
digit run (a shorter run would put a digit where a literal space is required,
so no digit backtracking can succeed). -/

/-- The literal `maximum context length is `. -/
def ctxLit1 : Str := "maximum context length is ".toList

/-- The literal `resulted in `. -/
def ctxLit2 : Str := "resulted in ".toList

/-- The literal ` tokens`. -/
def ctxLitTok : Str := " tokens".toList

/-- Characters matched by `.` in a JavaScript regex without the `s` flag
(everything except line terminators). -/
def isDotChar (c : Char) : Bool :=
  !(c = '\n' || c = '\r' || c = Char.ofNat 0x2028 || c = Char.ofNat 0x2029)

/-- Attempt `resulted in (\d+) tokens` at the head of `l`; returns the
captured number. -/
def tryResulted (l : Str) : Option Nat :=
  match litMatch true ctxLit2 l with
  | none => none
  | some r =>
    let ds := r.takeWhile Char.isDigit
    let r2 := r.dropWhile Char.isDigit
    if ds = [] then none
    else
      match litMatch true ctxLitTok r2 with
      | none => none
      | some _ => some (digitsToNat ds)

/-- Greedy `.*` followed by `resulted in (\d+) tokens`: try the rightmost
start position first, never skipping past a line terminator. -/
def findGreedy : Str → Option Nat
  | [] => tryResulted []
  | c :: rest =>
    if isDotChar c then
      match findGreedy rest with
      | some v => some v
      | none => tryResulted (c :: rest)
    else tryResulted (c :: rest)

/-- Attempt the whole regex at the head of `l`. -/
def tryCtxHead (l : Str) : Option (Nat × Nat) :=
  match litMatch true ctxLit1 l with
  | none => none
  | some r =>
    let ds := r.takeWhile Char.isDigit
    let r2 := r.dropWhile Char.isDigit
    if ds = [] then none
    else
      match litMatch true ctxLitTok r2 with
      | none => none
      | some r3 =>
        match findGreedy r3 with
        | none => none
        | some m => some (digitsToNat ds, m)

/-- Leftmost-match scan over all start positions. -/
def parseCtxAux : Str → Option (Nat × Nat)
  | [] => tryCtxHead []
  | c :: t =>
    match tryCtxHead (c :: t) with
    | some v => some v
    | none => parseCtxAux t

/-- `parseContextLengthError`: `some (maxTokens, usedTokens)` when the error
message matches the context-length pattern, `none` otherwise. -/
def parseContextLengthError (s : Str) : Option (Nat × Nat) := parseCtxAux s

/-! ## API-key storage (`src/lib/utils.ts`, lines 33–105) -/

/-- The fixed XOR key `pdf-analyzer-key-2025`. -/
def xorKeyStr : Str := "pdf-analyzer-key-2025".toList

/-- Value of a base64 alphabet character. -/
def b64Val (c : Char) : Option Nat :=
  if 'A' ≤ c ∧ c ≤ 'Z' then some (c.toNat - 'A'.toNat)
  else if 'a' ≤ c ∧ c ≤ 'z' then some (c.toNat - 'a'.toNat + 26)
  else if '0' ≤ c ∧ c ≤ '9' then some (c.toNat - '0'.toNat + 52)
  else if c = '+' then some 62
  else if c = '/' then some 63
  else none

/-- Reassemble 6-bit groups into bytes (base64 decoding core); fails on a
trailing group of one character. -/
def b64Chunks : List Nat → Option (List Nat)
  | [] => some []
  | [_] => none
  | [a, b] => some [a * 4 + b / 16]
  | [a, b, c] => some [a * 4 + b / 16, b % 16 * 16 + c / 4]
  | a :: b :: c :: d :: rest =>
    (b64Chunks rest).map
      (fun tl => (a * 4 + b / 16) :: (b % 16 * 16 + c / 4) :: (c % 4 * 64 + d) :: tl)

/-- Model of `atob`: strip trailing padding, map the alphabet, reassemble
bytes; `none` models the thrown `InvalidCharacterError`. -/
def atobStr (s : Str) : Option Str :=
  let core := (s.reverse.dropWhile (fun c => c = '=')).reverse
  match core.mapM b64Val with
  | none => none
  | some vals => (b64Chunks vals).map (fun bytes => bytes.map Char.ofNat)

/-- The XOR loop shared by `encryptApiKey`/`decryptApiKey`. -/
def xorWithKey (s : Str) : Str :=
  s.enum.map
    (fun p => Char.ofNat (p.2.toNat ^^^ (xorKeyStr.getD (p.1 % xorKeyStr.length) ' ').toNat))

/-- `decryptApiKey`: base64-decode then XOR; a decoding failure is caught
and yields the empty string. -/
def decryptApiKey (enc : Str) : Str :=
  match atobStr enc with
  | none => []
  | some e => xorWithKey e

/-- `getApiKey`: read `apiKey_<provider>` from the session store (an oracle
`String → Option Str`); a missing or empty entry yields `none`, otherwise
the decrypted key. -/
def getApiKey (session : String → Option Str) (provider : String) : Option Str :=
  match session ("apiKey_" ++ provider) with
  | none => none
  | some enc => if enc = [] then none else some (decryptApiKey enc)

/-! ## Document store (`src/lib/documentStore.ts`) -/

/-- A `ProcessedDocument` (`src/types/index.ts`). -/
structure StoredDoc where
  id : String
  name : String
  text : Str
  pageContents : List Str
  pageCount : Nat
  dateUploaded : String
deriving DecidableEq

/-- The global `Record<string, ProcessedDocument>`: an insertion-ordered
association list with unique keys (JavaScript objects preserve insertion
order of string keys; `Object.values` reads them in that order). -/
abbrev Store := List (String × StoredDoc)

/-- `globalDocuments[key] = d`: update in place if the key exists, else
append. -/
def storeUpdate (store : Store) (key : String) (d : StoredDoc) : Store :=
  if store.any (fun p => p.1 = key) then
    store.map (fun p => if p.1 = key then (key, d) else p)
  else store ++ [(key, d)]

/-- `storeDocument`: reject invalid documents; if a document with the same
name exists, overwrite the incoming document's `id` with the existing one's
(the source mutates its argument) and store under that id.  Returns the
updated store and the (possibly mutated) document. -/
def storeDocument (store : Store) (doc : StoredDoc) : Store × StoredDoc :=
  if doc.id = "" then (store, doc)
  else if doc.pageContents.length = 0 then (store, doc)
  else
    let doc' :=
      match store.find? (fun p => p.2.name = doc.name) with
      | some p => { doc with id := p.2.id }
      | none => doc
    (storeUpdate store doc'.id doc', doc')

/-- `getDocument`: `none` for a falsy id, a missing key, or a stored
document whose `pageContents` is empty. -/
def getDocument (store : Store) (id : String) : Option StoredDoc :=
  if id = "" then none
  else
    match store.find? (fun p => p.1 = id) with
    | none => none
    | some p => if p.2.pageContents.length = 0 then none else some p.2

/-! ## Chunking loop and POST handler (`src/app/api/chat/route.ts`) -/

/-- The chunking loop (`for (let i = 0; ...)`): a falsy (empty) page is
skipped with `continue`; otherwise the external
`RecursiveCharacterTextSplitter` (`splitPage`) produces the page's chunks,
each tagged with `pageNumber = i + 1`.  The index `i` advances for skipped
pages too. -/
def chunkAux (splitPage : Str → List Str) : Nat → List Str → List ChunkDoc
  | _, [] => []
  | i, p :: ps =>
    if p = [] then chunkAux splitPage (i + 1) ps
    else (splitPage p).map (fun c => ⟨c, i + 1⟩) ++ chunkAux splitPage (i + 1) ps

/-- The chunking loop started at page index 0. -/
def chunkDocs (splitPage : Str → List Str) (pageContents : List Str) :
    List ChunkDoc :=
  chunkAux splitPage 0 pageContents

/-- A network call to an embedding or generation vendor. -/
inductive NetCall where
  | openaiEmbedDocs (texts : List Str)
  | voyageEmbedDocs (texts : List Str)
  | openaiEmbedQuery (text : Str)
  | voyageEmbedQuery (text : Str)
  | generate (prompt : Str)

/-- The provider tag of `ApiKeyConfig`. -/
inductive Provider where
  | openai
  | anthropic
deriving DecidableEq

/-- `ApiKeyConfig` as the chat route reads it. -/
structure ApiKeyConfig where
  provider : Provider
  apiKey : String
  model : Option String
  voyageApiKey : Option Str

/-- The parsed request body `{documentId, message, apiKeyConfig}`. -/
structure ChatRequest where
  documentId : Option String
  message : Option Str
  apiKeyConfig : Option ApiKeyConfig

/-- The environment of external collaborators: the document store, the
session storage, the langchain text splitter, and the vendor network
oracles. -/
structure Env where
  store : Store
  session : String → Option Str
  splitPage : Str → List Str
  openaiEmbedDocs : List Str → Except String (List (List ℝ))
  openaiEmbedQuery : Str → Except String (List ℝ)
  voyageFetch : VoyageFetch
  invoke : Str → Except String Str

/-- The route's JSON result: an error with HTTP status, or the answer with
its references. -/
inductive ChatResponse where
  | err (status : Nat) (message : String)
  | ok (responseText : Str) (references : List DocumentReference)

/-- Join a list of strings with a separator (`Array.prototype.join`). -/
def joinWith (sep : Str) : List Str → Str
  | [] => []
  | [x] => x
  | x :: xs => x ++ sep ++ joinWith sep xs

/-- Decimal digits of a page number. -/
def natDigits (n : Nat) : Str := (Nat.repr n).toList

/-- The `context` string: each relevant chunk prefixed by its `PAGE <n>`
marker, chunks separated by blank lines. -/
def pageContext (relevantDocs : List ChunkDoc) : Str :=
  joinWith "\n\n".toList
    (relevantDocs.map (fun d => "PAGE ".toList ++ natDigits d.pageNumber ++ '\n' :: d.content))

/-- The fixed prompt template around the context and the question. -/
def buildPrompt (context message : Str) : Str :=
  "\n    You are an AI assistant that helps users understand PDF documents.\n    \n    CONTEXT:\n    ".toList
  ++ context
  ++ "\n    \n    USER QUESTION:\n    ".toList
  ++ message
  ++ "\n    \n    Provide a helpful response based solely on the context above.\n    If you don't know the answer based on the provided context, say so.\n    Be detailed but concise.\n    \n    IMPORTANT CITATION INSTRUCTIONS:\n    1. Always cite information using page numbers from the context (marked as PAGE X).\n    2. Format your citations consistently as [PAGE X] inline with your text.\n    3. When you mention information from a specific page, always include the page number.\n    4. Only cite page numbers that are explicitly provided in the context sections above.\n    \n    Format your response in Markdown.\n    ".toList

/-- The query-embedding step of `similaritySearch`
(`getEmbeddingProvider().embedQuery(query)`): note the vector store was
built with `apiKeyConfig.voyageApiKey`, not the session-resolved key. -/
noncomputable def postQueryEmbedding (env : Env) (cfg : ApiKeyConfig)
    (message : Str) : Except String (List ℝ) × List NetCall :=
  match cfg.provider with
  | .openai => (env.openaiEmbedQuery message, [.openaiEmbedQuery message])
  | .anthropic =>
    match cfg.voyageApiKey with
    | none => (.error "Voyage API key is required for Anthropic provider", [])
    | some k =>
      if k = [] then (.error "Voyage API key is required for Anthropic provider", [])
      else
        let r := voyageEmbedQuery env.voyageFetch message
        (r.1, if r.2 = 0 then [] else [.voyageEmbedQuery message])

/-- The handler tail from the similarity search onwards: search, prompt
assembly, generation, and reference extraction.  Thrown errors reach the
route's catch-all and become 500 responses. -/
noncomputable def postSearch (env : Env) (cfg : ApiKeyConfig) (message : Str)
    (docs : List ChunkDoc) (embeddings : List (List ℝ)) (trace : List NetCall) :
    ChatResponse × List NetCall :=
  if embeddings.length = 0 then
    (.err 500 "Failed to process chat request: No documents in vector store", trace)
  else
    let q := postQueryEmbedding env cfg message
    match q.1 with
    | .error e => (.err 500 ("Failed to process chat request: " ++ e), trace ++ q.2)
    | .ok qv =>
      match similaritySearchRanked docs embeddings qv 100 with
      | .error e => (.err 500 ("Failed to process chat request: " ++ e), trace ++ q.2)
      | .ok relevantDocs =>
        let prompt := buildPrompt (pageContext relevantDocs) message
        match env.invoke prompt with
        | .error e =>
          (.err 500 ("Failed to process chat request: " ++ e),
           trace ++ q.2 ++ [.generate prompt])
        | .ok responseText =>
          (.ok responseText (extractReferences responseText relevantDocs message),
           trace ++ q.2 ++ [.generate prompt])

/-- The embedding step: OpenAI embeds directly; the Anthropic family first
resolves a Voyage key (config, then session) and fails with the
missing-credentials 400 before any network call when none is found. -/
noncomputable def postEmbed (env : Env) (cfg : ApiKeyConfig) (message : Str)
    (docs : List ChunkDoc) : ChatResponse × List NetCall :=
  match cfg.provider with
  | .openai =>
    let texts := docs.map (fun d => d.content)
    match env.openaiEmbedDocs texts with
    | .error e =>
      (.err 500 ("Failed to process chat request: " ++ e), [.openaiEmbedDocs texts])
    | .ok embeddings =>
      postSearch env cfg message docs embeddings [.openaiEmbedDocs texts]
  | .anthropic =>
    let voyageKey : Option Str :=
      match cfg.voyageApiKey with
      | some k => if k = [] then getApiKey env.session "voyage" else some k
      | none => getApiKey env.session "voyage"
    match voyageKey with
    | none => (.err 400 "Voyage AI API key is required for Anthropic provider", [])
    | some k =>
      if k = [] then (.err 400 "Voyage AI API key is required for Anthropic provider", [])
      else
        let texts := docs.map (fun d => d.content)
        let r := voyageEmbedDocuments env.voyageFetch texts
        let trace := if r.2 = 0 then [] else [NetCall.voyageEmbedDocs texts]
        match r.1 with
        | .error e => (.err 500 ("Failed to process chat request: " ++ e), trace)
        | .ok embeddings => postSearch env cfg message docs embeddings trace

/-- The `POST` handler of the chat route. -/
noncomputable def postChat (env : Env) (req : ChatRequest) :
    ChatResponse × List NetCall :=
  match req.documentId, req.message, req.apiKeyConfig with
  | some docId, some message, some cfg =>
    if docId = "" ∨ message = [] then
      (.err 400 "Document ID, message, and API key configuration are required", [])
    else
      match getDocument env.store docId with
      | none => (.err 404 "Document not found", [])
      | some document =>
        if document.pageContents.length = 0 then
          (.err 400 "Document has no content to analyze", [])
        else
          let docs := chunkDocs env.splitPage document.pageContents
          if docs.length = 0 then
            (.err 500 "Failed to process document content", [])
          else postEmbed env cfg message docs
  | _, _, _ =>
    (.err 400 "Document ID, message, and API key configuration are required", [])

/-! ## C1 — `embedDocuments` batch behaviour -/

theorem exceptMap_error {α β : Type} (f : α → β) (e : String) :
    Except.map f (Except.error e : Except String α) = Except.error e := rfl

theorem exceptMap_ok {α β : Type} (f : α → β) (a : α) :
    Except.map f (Except.ok a : Except String α) = Except.ok (f a) := rfl

/-- A well-behaved Voyage fetch oracle: one embedding per input text, listed
in input order. -/
def constVoyageFetch : VoyageFetch :=
  fun ts => .ok ⟨ts.enum.map (fun p => ⟨[0], p.1⟩)⟩

/-- C1, counterexample: called on 150 texts, `embedDocuments` does not
sub-batch — it makes zero underlying provider calls (not at least 2) and
returns the batch-size error instead of 150 vectors. -/
theorem C1_embedDocuments_counterexample :
    voyageEmbedDocuments constVoyageFetch (List.replicate 150 "x".toList) =
      (.error "Maximum of 128 texts can be embedded at once", 0) ∧
    ¬ 2 ≤ (voyageEmbedDocuments constVoyageFetch (List.replicate 150 "x".toList)).2 ∧
    ∀ vs : List (List ℝ),
      (voyageEmbedDocuments constVoyageFetch (List.replicate 150 "x".toList)).1 ≠ .ok vs := by
  have h : 128 < (List.replicate 150 "x".toList).length := by simp
  refine ⟨?_, ?_, ?_⟩ <;>
    simp [voyageEmbedDocuments, voyageEmbedTexts, h, exceptMap_error]

/-- C1, amended: `embedDocuments` performs no sub-batching.  On more than
128 texts it throws the batch-size error having made zero provider calls;
on at most 128 texts it makes exactly one provider call and returns one
vector per response item, in the provider's response order. -/
theorem C1_embedDocuments_amended (fetch : VoyageFetch) (texts : List Str) :
    (128 < texts.length →
      voyageEmbedDocuments fetch texts =
        (.error "Maximum of 128 texts can be embedded at once", 0)) ∧
    (texts.length ≤ 128 → ∀ resp, fetch texts = .ok resp →
      voyageEmbedDocuments fetch texts =
        (.ok (resp.data.map (fun d => d.embedding)), 1)) := by
  constructor
  · intro h
    simp [voyageEmbedDocuments, voyageEmbedTexts, h, exceptMap_error]
  · intro h resp hresp
    have h' : ¬ 128 < texts.length := by omega
    simp [voyageEmbedDocuments, voyageEmbedTexts, h', hresp, exceptMap_ok]

/-- C1, witness: the amended theorem applied to a 129-text list (error, no
calls) and to a singleton list (one call, vectors in response order). -/
theorem C1_embedDocuments_witness :
    (128 < (List.replicate 129 "x".toList).length ∧
      voyageEmbedDocuments constVoyageFetch (List.replicate 129 "x".toList) =
        (.error "Maximum of 128 texts can be embedded at once", 0)) ∧
    (["a".toList].length ≤ 128 ∧
      constVoyageFetch ["a".toList] = .ok ⟨[⟨[0], 0⟩]⟩ ∧
      voyageEmbedDocuments constVoyageFetch ["a".toList] = (.ok [[0]], 1)) :=
  ⟨⟨by simp, (C1_embedDocuments_amended constVoyageFetch _).1 (by simp)⟩,
   ⟨by simp, rfl,
    (C1_embedDocuments_amended constVoyageFetch _).2 (by simp) ⟨[⟨[0], 0⟩]⟩ rfl⟩⟩

/-! ## C4 — fallback citations when no page is mentioned -/

/-- C4: when no retrieved chunk's page number occurs in the page-mention
scan of the answer, the extractor returns the first three chunks of the
ranked list as fallback citations: the result is exactly
`(docs.take 3).map fallbackRef`, has length `min 3 docs.length`, and is
non-empty whenever the input chunk list is. -/
theorem C4_noPageMention_fallback (responseText message : Str)
    (docs : List ChunkDoc)
    (h : ∀ d ∈ docs, d.pageNumber ∉ mentionedPages responseText) :
    extractReferences responseText docs message = (docs.take 3).map fallbackRef ∧
    (extractReferences responseText docs message).length = min 3 docs.length ∧
    (docs ≠ [] → extractReferences responseText docs message ≠ []) := by
  have hfilter :
      docs.filter (fun d => decide (d.pageNumber ∈ mentionedPages responseText)) = [] := by
    rw [List.filter_eq_nil_iff]
    intro d hd
    simpa using h d hd
  have hmain :
      extractReferences responseText docs message = (docs.take 3).map fallbackRef := by
    simp [extractReferences, hfilter]
  refine ⟨hmain, ?_, ?_⟩
  · rw [hmain]
    simp
  · intro hne hc
    rw [hmain] at hc
    have h3 : ((docs.take 3).map fallbackRef).length = 0 := by rw [hc]; rfl
    rw [List.length_map, List.length_take] at h3
    have := List.length_pos.mpr hne
    omega

/-- C4, witness: the theorem applied to a concrete two-chunk list and an
answer mentioning no pages. -/
theorem C4_noPageMention_fallback_witness :
    (∀ d ∈ ([⟨"abc".toList, 1⟩, ⟨"de".toList, 2⟩] : List ChunkDoc),
      d.pageNumber ∉ mentionedPages "no marker here".toList) ∧
    extractReferences "no marker here".toList
        [⟨"abc".toList, 1⟩, ⟨"de".toList, 2⟩] "why".toList =
      (([⟨"abc".toList, 1⟩, ⟨"de".toList, 2⟩] : List ChunkDoc).take 3).map fallbackRef ∧
    (extractReferences "no marker here".toList
        [⟨"abc".toList, 1⟩, ⟨"de".toList, 2⟩] "why".toList).length =
      min 3 ([⟨"abc".toList, 1⟩, ⟨"de".toList, 2⟩] : List ChunkDoc).length :=
  ⟨by decide,
   (C4_noPageMention_fallback _ _ _ (by decide)).1,
   (C4_noPageMention_fallback _ _ _ (by decide)).2.1⟩

/-! ## C8 — page skipping and page numbering in the chunking loop -/


/-- The chunking loop with an arbitrary start index: a page contributes no
chunks iff it is empty (the `continue`) or the splitter returns nothing for
it (by hypothesis, in particular whenever it is whitespace-only), and each
chunk of the page at offset `j` carries the absolute page number
`i + j + 1` regardless of skipped pages. -/
theorem chunkAux_spec (splitPage : Str → List Str)
    (hws : ∀ s : Str, (∀ c ∈ s, jsWs c) → splitPage s = []) :
    ∀ (pages : List Str) (i : Nat),
      chunkAux splitPage i pages =
        (List.range pages.length).flatMap
          (fun j =>
            if ∀ c ∈ pages.getD j [], jsWs c then []
            else (splitPage (pages.getD j [])).map (fun c => ⟨c, i + j + 1⟩)) := by
  intro pages
  induction pages with
  | nil => intro i; simp [chunkAux]
  | cons p ps ih =>
    intro i
    have hshift :
        ((List.range ps.length).map Nat.succ).flatMap
            (fun j =>
              if ∀ c ∈ (p :: ps).getD j [], jsWs c then []
              else (splitPage ((p :: ps).getD j [])).map (fun c => (⟨c, i + j + 1⟩ : ChunkDoc))) =
          (List.range ps.length).flatMap
            (fun j =>
              if ∀ c ∈ ps.getD j [], jsWs c then []
              else (splitPage (ps.getD j [])).map (fun c => (⟨c, (i + 1) + j + 1⟩ : ChunkDoc))) := by
      rw [List.flatMap_map]
      congr 1
      funext j
      have harith : i + (j + 1) + 1 = i + 1 + j + 1 := by omega
      simp only [Function.comp, Nat.succ_eq_add_one, List.getD_cons_succ, harith]
    rw [List.length_cons, List.range_succ_eq_map, List.flatMap_cons, hshift, ← ih (i + 1)]
    by_cases hp : p = []
    · subst hp
      simp [chunkAux]
    · by_cases hall : ∀ c ∈ p, jsWs c
      · simp [chunkAux, hp, hws p hall, hall]
      · simp [chunkAux, hp, hall]

/-- C8: assuming the external splitter produces no chunks from
whitespace-only text, the chunking loop produces no chunks from empty or
whitespace-only pages while still counting them: the chunk list equals the
concatenation over page indices `j` of the `j`-th page's chunks, each
tagged `pageNumber = j + 1`. -/
theorem C8_chunking_skips_and_numbering (splitPage : Str → List Str)
    (pages : List Str)
    (hws : ∀ s : Str, (∀ c ∈ s, jsWs c) → splitPage s = []) :
    chunkDocs splitPage pages =
      (List.range pages.length).flatMap
        (fun j =>
          if ∀ c ∈ pages.getD j [], jsWs c then []
          else (splitPage (pages.getD j [])).map (fun c => ⟨c, j + 1⟩)) := by
  have h := chunkAux_spec splitPage hws pages 0
  simpa [chunkDocs] using h

/-- A splitter that drops whitespace-only pages and otherwise returns the
page whole — a minimal model of `RecursiveCharacterTextSplitter` for the
witness. -/
def wsAwareSplit : Str → List Str := fun s => if s.all jsWs then [] else [s]

/-- C8, witness: the theorem applied to pages `["aa", " ", "", "bb"]`:
pages 2 and 3 contribute nothing, and `bb`'s chunk still carries page 4. -/
theorem C8_chunking_witness :
    (∀ s : Str, (∀ c ∈ s, jsWs c) → wsAwareSplit s = []) ∧
    chunkDocs wsAwareSplit ["aa".toList, " ".toList, [], "bb".toList] =
      (List.range (["aa".toList, " ".toList, [], "bb".toList] : List Str).length).flatMap
        (fun j =>
          if ∀ c ∈ (["aa".toList, " ".toList, [], "bb".toList] : List Str).getD j [], jsWs c then []
          else (wsAwareSplit ((["aa".toList, " ".toList, [], "bb".toList] : List Str).getD j [])).map
            (fun c => ⟨c, j + 1⟩)) ∧
    chunkDocs wsAwareSplit ["aa".toList, " ".toList, [], "bb".toList] =
      [⟨"aa".toList, 1⟩, ⟨"bb".toList, 4⟩] := by
  have hws : ∀ s : Str, (∀ c ∈ s, jsWs c) → wsAwareSplit s = [] := by
    intro s hs
    simp [wsAwareSplit, List.all_eq_true.mpr (by intro c hc; exact hs c hc)]
  exact ⟨hws, C8_chunking_skips_and_numbering wsAwareSplit _ hws, by decide⟩

/-! ## C10 — `storeDocument` same-name overwrite -/

/-- In a store with no duplicate keys, entries are determined by their
key. -/
theorem store_key_inj (store : Store) (hk : (store.map Prod.fst).Nodup)
    (p q : String × StoredDoc) (hp : p ∈ store) (hq : q ∈ store)
    (heq : p.1 = q.1) : p = q := by
  induction store with
  | nil => simp at hp
  | cons a t ih =>
    simp only [List.map_cons, List.nodup_cons] at hk
    rcases List.mem_cons.mp hp with rfl | hp'
    · rcases List.mem_cons.mp hq with rfl | hq'
      · rfl
      · exact absurd (heq ▸ List.mem_map_of_mem Prod.fst hq') hk.1
    · rcases List.mem_cons.mp hq with rfl | hq'
      · exact absurd (heq ▸ List.mem_map_of_mem Prod.fst hp') hk.1
      · exact ih hk.2 hp' hq'

/-- C10: storing a valid document whose name already exists in the store
(found as entry `p`) mutates the incoming document's id to the existing
entry's id and overwrites that entry in place: the key set and the name
list are unchanged (no entry is created under the incoming id), and the
store keeps at most one document per name. -/
theorem C10_storeDocument_overwrite (store : Store) (doc : StoredDoc)
    (p : String × StoredDoc)
    (hid : doc.id ≠ "")
    (hpc : doc.pageContents.length ≠ 0)
    (hfind : store.find? (fun q => q.2.name = doc.name) = some p)
    (hkeys : ∀ q ∈ store, q.2.id = q.1)
    (hknodup : (store.map Prod.fst).Nodup)
    (hnames : (store.map (fun q => q.2.name)).Nodup) :
    (storeDocument store doc).2 = { doc with id := p.2.id } ∧
    (storeDocument store doc).1 =
      store.map (fun q => if q.1 = p.2.id then (p.2.id, { doc with id := p.2.id }) else q) ∧
    (storeDocument store doc).1.map Prod.fst = store.map Prod.fst ∧
    (storeDocument store doc).1.map (fun q => q.2.name) =
      store.map (fun q => q.2.name) ∧
    ((storeDocument store doc).1.map (fun q => q.2.name)).Nodup ∧
    (doc.id ∉ store.map Prod.fst → doc.id ∉ (storeDocument store doc).1.map Prod.fst) := by
  have hp : p ∈ store := List.mem_of_find?_eq_some hfind
  have hpn : p.2.name = doc.name := by
    have := List.find?_some hfind
    simpa using this
  have hpid : p.2.id = p.1 := hkeys p hp
  have hany : store.any (fun q => q.1 = p.2.id) = true := by
    rw [List.any_eq_true]
    exact ⟨p, hp, by simp [hpid]⟩
  have hdoc2 : (storeDocument store doc).2 = { doc with id := p.2.id } := by
    simp [storeDocument, hid, hpc, hfind]
  have hstore : (storeDocument store doc).1 =
      store.map (fun q => if q.1 = p.2.id then (p.2.id, { doc with id := p.2.id }) else q) := by
    simp [storeDocument, hid, hpc, hfind, storeUpdate, hany]
  have hkeyeq : (storeDocument store doc).1.map Prod.fst = store.map Prod.fst := by
    rw [hstore, List.map_map]
    apply List.map_congr_left
    intro q _
    by_cases hq : q.1 = p.2.id
    · simp [hq]
    · simp [hq]
  have hnameeq : (storeDocument store doc).1.map (fun q => q.2.name) =
      store.map (fun q => q.2.name) := by
    rw [hstore, List.map_map]
    apply List.map_congr_left
    intro q hq
    by_cases hqk : q.1 = p.2.id
    · have : q = p := store_key_inj store hknodup q p hq hp (by rw [hqk, hpid])
      subst this
      simp [hqk, hpn]
    · simp [hqk]
  refine ⟨hdoc2, hstore, hkeyeq, hnameeq, ?_, ?_⟩
  · rw [hnameeq]
    exact hnames
  · intro hnotin
    rw [hkeyeq]
    exact hnotin

/-- The pre-existing store entry for the C10 witness. -/
def c10Entry : StoredDoc := ⟨"id1", "doc.pdf", [], ["x".toList], 1, "d"⟩

/-- The same-named incoming document for the C10 witness. -/
def c10Doc : StoredDoc := ⟨"id2", "doc.pdf", [], ["y".toList], 1, "d"⟩

/-- C10, witness: the theorem applied to a concrete one-entry store and a
same-named incoming document with a different id. -/
theorem C10_storeDocument_witness :
    (storeDocument [("id1", c10Entry)] c10Doc).2 = { c10Doc with id := "id1" } ∧
    (storeDocument [("id1", c10Entry)] c10Doc).1.map Prod.fst = ["id1"] ∧
    ("id2" ∉ ([("id1", c10Entry)] : Store).map Prod.fst →
      "id2" ∉ (storeDocument [("id1", c10Entry)] c10Doc).1.map Prod.fst) := by
  have h := C10_storeDocument_overwrite [("id1", c10Entry)] c10Doc ("id1", c10Entry)
    (by decide) (by decide) (by decide) (by decide) (by decide) (by decide)
  refine ⟨h.1, ?_, h.2.2.2.2.2⟩
  rw [h.2.2.1]
  rfl

/-! ## C2 — highlight ranges are within the chunk -/

theorem phraseHit_bound (content message : Str) (ph : Str) (idx : Nat)
    (h : phraseHit content message = some (ph, idx)) :
    idx + ph.length ≤ content.length := by
  obtain ⟨x, _, hx⟩ := List.exists_of_findSome?_eq_some h
  rw [Option.map_eq_some'] at hx
  obtain ⟨i, hi, hpair⟩ := hx
  rw [Prod.mk.injEq] at hpair
  obtain ⟨rfl, rfl⟩ := hpair
  have hb := firstIdx_isSome_bound (lc content) (lc x) i hi
  simpa [lc] using hb

theorem keywordHit_bound (content message : Str) (w : Str) (idx : Nat)
    (h : keywordHit content message = some (w, idx)) :
    idx + w.length ≤ content.length := by
  obtain ⟨x, _, hx⟩ := List.exists_of_findSome?_eq_some h
  rw [Option.map_eq_some'] at hx
  obtain ⟨i, hi, hpair⟩ := hx
  rw [Prod.mk.injEq] at hpair
  obtain ⟨rfl, rfl⟩ := hpair
  have hb := firstIdx_isSome_bound (lc content) x i hi
  simpa [lc] using hb

/-- The highlight range produced by `refOf` is clamped into the chunk. -/
theorem refOf_range (message : Str) (d : ChunkDoc) :
    (refOf message d).fullText = d.content ∧
    0 ≤ (refOf message d).hlStart ∧
    (refOf message d).hlStart ≤ (refOf message d).hlEnd ∧
    (refOf message d).hlEnd ≤ (d.content.length : ℚ) := by
  rw [refOf]
  cases hph : phraseHit d.content message with
  | some pr =>
    obtain ⟨ph, idx⟩ := pr
    have hb : (idx : ℚ) + ph.length ≤ d.content.length := by
      have := phraseHit_bound d.content message ph idx hph
      exact_mod_cast this
    have hcs : (0 : ℚ) ≤ (max 100 (ph.length * 3) : ℚ) / 2 := by
      have : (0 : ℚ) ≤ (max 100 (ph.length * 3) : ℚ) := le_max_of_le_left (by norm_num)
      linarith
    have hidx0 : (0 : ℚ) ≤ (idx : ℚ) := by positivity
    have hpl0 : (0 : ℚ) ≤ (ph.length : ℚ) := by positivity
    refine ⟨rfl, le_max_left 0 _, ?_, min_le_left _ _⟩
    apply max_le
    · apply le_min
      · linarith
      · linarith
    · apply le_min
      · linarith
      · linarith
  | none =>
    cases hkw : keywordHit d.content message with
    | some pr =>
      obtain ⟨w, idx⟩ := pr
      have hb : (idx : ℚ) + w.length ≤ d.content.length := by
        have := keywordHit_bound d.content message w idx hkw
        exact_mod_cast this
      have hidx0 : (0 : ℚ) ≤ (idx : ℚ) := by positivity
      have hwl0 : (0 : ℚ) ≤ (w.length : ℚ) := by positivity
      refine ⟨rfl, le_max_left 0 _, ?_, min_le_left _ _⟩
      apply max_le
      · apply le_min
        · linarith
        · linarith
      · apply le_min
        · linarith
        · linarith
    | none =>
      refine ⟨rfl, le_refl 0, ?_, ?_⟩
      · show (0 : ℚ) ≤ min (d.content.length : ℚ) 300
        apply le_min
        · positivity
        · norm_num
      · show min (d.content.length : ℚ) 300 ≤ (d.content.length : ℚ)
        exact min_le_left _ _

/-- The fallback highlight range is clamped into the chunk. -/
theorem fallbackRef_range (d : ChunkDoc) :
    (fallbackRef d).fullText = d.content ∧
    0 ≤ (fallbackRef d).hlStart ∧
    (fallbackRef d).hlStart ≤ (fallbackRef d).hlEnd ∧
    (fallbackRef d).hlEnd ≤ (d.content.length : ℚ) := by
  refine ⟨rfl, le_refl 0, ?_, ?_⟩
  · show (0 : ℚ) ≤ min (d.content.length : ℚ) 300
    apply le_min
    · positivity
    · norm_num
  · show min (d.content.length : ℚ) 300 ≤ (d.content.length : ℚ)
    exact min_le_left _ _

/-- C2: every citation produced by the extractor — via phrase match, keyword
match, the default window, or the fallback — has
`0 ≤ start ≤ end ≤ length (fullText)`. -/
theorem C2_highlightRange_valid (responseText message : Str)
    (docs : List ChunkDoc) (r : DocumentReference)
    (hr : r ∈ extractReferences responseText docs message) :
    0 ≤ r.hlStart ∧ r.hlStart ≤ r.hlEnd ∧ r.hlEnd ≤ (r.fullText.length : ℚ) := by
  simp only [extractReferences] at hr
  split at hr
  · obtain ⟨d, _, rfl⟩ := List.mem_map.mp hr
    obtain ⟨hf, h0, h1, h2⟩ := fallbackRef_range d
    exact ⟨h0, h1, by rw [hf]; exact h2⟩
  · obtain ⟨d, _, rfl⟩ := List.mem_map.mp hr
    obtain ⟨hf, h0, h1, h2⟩ := refOf_range message d
    exact ⟨h0, h1, by rw [hf]; exact h2⟩

/-- C2, witness: the theorem applied to a concrete extraction (fallback
path, mention-free answer). -/
theorem C2_highlightRange_witness :
    fallbackRef ⟨"abc".toList, 1⟩ ∈
      extractReferences "x".toList [⟨"abc".toList, 1⟩] "y".toList ∧
    (0 ≤ (fallbackRef ⟨"abc".toList, 1⟩).hlStart ∧
     (fallbackRef ⟨"abc".toList, 1⟩).hlStart ≤ (fallbackRef ⟨"abc".toList, 1⟩).hlEnd ∧
     (fallbackRef ⟨"abc".toList, 1⟩).hlEnd ≤
       ((fallbackRef ⟨"abc".toList, 1⟩).fullText.length : ℚ)) :=
  ⟨by decide, C2_highlightRange_valid "x".toList "y".toList [⟨"abc".toList, 1⟩]
    (fallbackRef ⟨"abc".toList, 1⟩) (by decide)⟩

/-! ## C7 — cosine similarity: zero norms and identical vectors -/

theorem sumSq_foldl_eq (l : List ℝ) (c : ℝ) :
    l.foldl (fun acc x => acc + x * x) c = c + (l.map (fun x => x * x)).sum := by
  induction l generalizing c with
  | nil => simp
  | cons a t ih =>
    simp only [List.foldl_cons, List.map_cons, List.sum_cons, ih]
    ring

theorem sumSq_eq_sum (l : List ℝ) : sumSq l = (l.map (fun x => x * x)).sum := by
  rw [sumSq, sumSq_foldl_eq]
  ring

theorem sumSq_nonneg (l : List ℝ) : 0 ≤ sumSq l := by
  rw [sumSq_eq_sum]
  apply List.sum_nonneg
  intro x hx
  obtain ⟨y, _, rfl⟩ := List.mem_map.mp hx
  exact mul_self_nonneg y

theorem sumSq_eq_zero_of_zero (l : List ℝ) (h : ∀ x ∈ l, x = 0) : sumSq l = 0 := by
  rw [sumSq_eq_sum]
  apply List.sum_eq_zero
  intro x hx
  obtain ⟨y, hy, rfl⟩ := List.mem_map.mp hx
  rw [h y hy]
  ring

theorem sumSq_pos_of_ne_zero (l : List ℝ) (h : ∃ x ∈ l, x ≠ 0) : 0 < sumSq l := by
  obtain ⟨x, hx, hne⟩ := h
  rw [sumSq_eq_sum]
  have hmem : x * x ∈ l.map (fun y => y * y) := List.mem_map_of_mem _ hx
  have hle : x * x ≤ (l.map (fun y => y * y)).sum := by
    apply List.single_le_sum _ _ hmem
    intro y hy
    obtain ⟨z, _, rfl⟩ := List.mem_map.mp hy
    exact mul_self_nonneg z
  have hpos : 0 < x * x := by
    rcases lt_or_gt_of_ne hne with hlt | hgt
    · exact mul_pos_of_neg_of_neg hlt hlt
    · exact mul_pos hgt hgt
  linarith

theorem dotProd_self (l : List ℝ) : dotProd l l = sumSq l := by
  rw [dotProd, sumSq]
  have : l.zip l = l.map (fun x => (x, x)) := by
    induction l with
    | nil => rfl
    | cons a t ih => simp [List.zip_cons_cons, ih]
  rw [this, List.foldl_map]

/-- C7: on equal-length vectors `cosineSimilarity` always returns a value
(never an error); a zero vector on either side yields exactly `0` (its norm
`√(Σ x²)` is `0`, so the guarded branch fires and no NaN-producing division
happens); and an identical non-zero pair yields exactly `1`. -/
theorem C7_cosineSimilarity_safety :
    (∀ a b : List ℝ, a.length = b.length → (cosineSimilarity a b).isSome) ∧
    (∀ a b : List ℝ, a.length = b.length →
      ((∀ x ∈ a, x = 0) ∨ (∀ x ∈ b, x = 0)) → cosineSimilarity a b = some 0) ∧
    (∀ a : List ℝ, (∃ x ∈ a, x ≠ 0) → cosineSimilarity a a = some 1) := by
  refine ⟨?_, ?_, ?_⟩
  · intro a b hlen
    simp only [cosineSimilarity]
    rw [if_pos hlen]
    split <;> simp
  · intro a b hlen hz
    have hcond : Real.sqrt (sumSq a) = 0 ∨ Real.sqrt (sumSq b) = 0 := by
      rcases hz with hz | hz
      · left
        rw [sumSq_eq_zero_of_zero a hz, Real.sqrt_zero]
      · right
        rw [sumSq_eq_zero_of_zero b hz, Real.sqrt_zero]
    simp only [cosineSimilarity]
    rw [if_pos hlen, if_pos hcond]
  · intro a ha
    have hpos : 0 < sumSq a := sumSq_pos_of_ne_zero a ha
    have hsqrt : Real.sqrt (sumSq a) ≠ 0 := by
      have := Real.sqrt_pos.mpr hpos
      linarith
    simp only [cosineSimilarity]
    rw [if_pos trivial, if_neg (by tauto), dotProd_self,
      Real.mul_self_sqrt (le_of_lt hpos), div_self (ne_of_gt hpos)]

/-- C7, witness: the theorem applied to the zero vector `[0]` against `[5]`
(score exactly 0) and to the non-zero vector `[2]` against itself (score
exactly 1). -/
theorem C7_cosineSimilarity_witness :
    (([(0 : ℝ)].length = [(5 : ℝ)].length ∧
      cosineSimilarity [(0 : ℝ)] [(5 : ℝ)] = some 0) ∧
     ((∃ x ∈ [(2 : ℝ)], x ≠ 0) ∧ cosineSimilarity [(2 : ℝ)] [(2 : ℝ)] = some 1)) :=
  ⟨⟨rfl, C7_cosineSimilarity_safety.2.1 [(0 : ℝ)] [(5 : ℝ)] rfl
      (Or.inl (fun x hx => by simpa using hx))⟩,
   ⟨⟨2, by simp, two_ne_zero⟩,
    C7_cosineSimilarity_safety.2.2 [(2 : ℝ)] ⟨2, by simp, two_ne_zero⟩⟩⟩

/-! ## C3 — similarity search ordering -/

/-- The strict order realised by JavaScript's stable sort under the
comparator `(a, b) => b.similarity - a.similarity` on index-tagged scores:
higher score first, ties by original index. -/
def lexBefore (a b : Nat × ℝ) : Prop :=
  b.2 < a.2 ∨ (a.2 = b.2 ∧ a.1 < b.1)

theorem orderedInsert_lex (x : Nat × ℝ) (l : List (Nat × ℝ))
    (hl : l.Pairwise lexBefore) (hx : ∀ y ∈ l, x.1 < y.1) :
    (List.orderedInsert scoreGE x l).Pairwise lexBefore := by
  induction l with
  | nil => simp [List.orderedInsert]
  | cons b t ih =>
    rw [List.pairwise_cons] at hl
    by_cases hxb : scoreGE x b
    · rw [List.orderedInsert, if_pos hxb]
      rw [List.pairwise_cons]
      constructor
      · intro z hz
        rcases List.mem_cons.mp hz with rfl | hzt
        · rcases lt_or_eq_of_le hxb with hlt | heq
          · exact Or.inl hlt
          · exact Or.inr ⟨heq.symm, hx z (List.mem_cons_self _ _)⟩
        · have hbz := hl.1 z hzt
          rcases hbz with hbz | ⟨hbe, _⟩
          · exact Or.inl (lt_of_lt_of_le hbz hxb)
          · rcases lt_or_eq_of_le hxb with hlt | heq
            · exact Or.inl (hbe ▸ hlt)
            · exact Or.inr ⟨by rw [← heq, hbe], hx z (List.mem_cons_of_mem _ hzt)⟩
      · exact List.pairwise_cons.mpr hl
    · rw [List.orderedInsert, if_neg hxb]
      rw [List.pairwise_cons]
      constructor
      · intro z hz
        have hz' := (List.perm_orderedInsert scoreGE x t).mem_iff.mp hz
        rcases List.mem_cons.mp hz' with rfl | hzt
        · exact Or.inl (lt_of_not_le hxb)
        · exact hl.1 z hzt
      · exact ih hl.2 (fun y hy => hx y (List.mem_cons_of_mem _ hy))

theorem insertionSort_lex (l : List (Nat × ℝ))
    (h : l.Pairwise (fun a b => a.1 < b.1)) :
    (List.insertionSort scoreGE l).Pairwise lexBefore := by
  induction l with
  | nil => simp [List.insertionSort]
  | cons x t ih =>
    rw [List.pairwise_cons] at h
    rw [List.insertionSort]
    apply orderedInsert_lex _ _ (ih h.2)
    intro y hy
    exact h.1 y ((List.perm_insertionSort scoreGE t).mem_iff.mp hy)

theorem scoredSimsAux_fst (q : List ℝ) (l : List (Nat × List ℝ))
    (sims : List (Nat × ℝ)) (h : scoredSimsAux q l = some sims) :
    sims.map Prod.fst = l.map Prod.fst := by
  induction l generalizing sims with
  | nil =>
    rw [scoredSimsAux] at h
    simp only [Option.some.injEq] at h
    subst h
    rfl
  | cons p ps ih =>
    rw [scoredSimsAux] at h
    cases hc : cosineSimilarity q p.2 with
    | none => rw [hc] at h; simp at h
    | some s =>
      rw [hc] at h
      cases hr : scoredSimsAux q ps with
      | none => rw [hr] at h; simp at h
      | some rest =>
        rw [hr] at h
        simp only [Option.some.injEq] at h
        subst h
        simp [ih rest hr]

theorem scoredSimsAux_isSome (q : List ℝ) (l : List (Nat × List ℝ))
    (h : ∀ p ∈ l, p.2.length = q.length) :
    ∃ sims, scoredSimsAux q l = some sims := by
  induction l with
  | nil => exact ⟨[], rfl⟩
  | cons p ps ih =>
    obtain ⟨rest, hrest⟩ := ih (fun x hx => h x (List.mem_cons_of_mem _ hx))
    have hc : (cosineSimilarity q p.2).isSome := by
      have hl : q.length = p.2.length := (h p (List.mem_cons_self _ _)).symm
      simp only [cosineSimilarity]
      rw [if_pos hl]
      split <;> simp
    obtain ⟨s, hs⟩ := Option.isSome_iff_exists.mp hc
    exact ⟨(p.1, s) :: rest, by rw [scoredSimsAux, hs, hrest]⟩

theorem map_getD_range {α : Type} (l : List α) (d : α) :
    (List.range l.length).map (fun i => l.getD i d) = l := by
  induction l with
  | nil => rfl
  | cons a t ih =>
    rw [List.length_cons, List.range_succ_eq_map, List.map_cons, List.map_map]
    have hmap : (List.range t.length).map ((fun i => (a :: t).getD i d) ∘ Nat.succ)
        = (List.range t.length).map (fun i => t.getD i d) := by
      apply List.map_congr_left
      intro i _
      simp [Function.comp]
    rw [List.getD_cons_zero, hmap, ih]

/-- C3: on a non-empty index with consistent vector lengths, the search
succeeds and returns the first `k` entries of the stably sorted score list:
the ranking is strictly ordered by descending score with ties broken by
original chunk index (`lexBefore`), the result length is
`min k (number of chunks)`, and when `k` is at least the number of chunks
the result is a permutation of the whole chunk list (each chunk exactly
once, sorted). -/
theorem C3_similaritySearch_ordering (docs : List ChunkDoc)
    (embs : List (List ℝ)) (q : List ℝ) (k : Nat)
    (hne : embs ≠ [])
    (hlen : ∀ e ∈ embs, e.length = q.length) :
    ∃ sims : List (Nat × ℝ),
      scoredSims q embs = some sims ∧
      similaritySearchRanked docs embs q k =
        .ok (((List.insertionSort scoreGE sims).take k).map
          (fun p => docs.getD p.1 default)) ∧
      (List.insertionSort scoreGE sims).Pairwise lexBefore ∧
      (((List.insertionSort scoreGE sims).take k).map
          (fun p => docs.getD p.1 default)).length = min k embs.length ∧
      (embs.length ≤ k → docs.length = embs.length →
        List.Perm
          (((List.insertionSort scoreGE sims).take k).map
            (fun p => docs.getD p.1 default))
          docs) := by
  obtain ⟨sims, hsims⟩ := scoredSimsAux_isSome q embs.enum
    (fun p hp => hlen p.2 (List.snd_mem_of_mem_enum hp))
  have hfst : sims.map Prod.fst = List.range embs.length := by
    rw [scoredSimsAux_fst q embs.enum sims hsims, List.enum_map_fst]
  have hsimslen : sims.length = embs.length := by
    have := congrArg List.length hfst
    simpa using this
  have hpw : sims.Pairwise (fun a b => a.1 < b.1) := by
    rw [← List.pairwise_map (f := Prod.fst)]
    rw [hfst]
    exact List.pairwise_lt_range _
  have hol : (List.insertionSort scoreGE sims).length = sims.length :=
    List.length_insertionSort scoreGE sims
  have hlen0 : ¬ embs.length = 0 := by
    intro h0
    exact hne (List.length_eq_zero.mp h0)
  refine ⟨sims, hsims, ?_, insertionSort_lex sims hpw, ?_, ?_⟩
  · have hsims' : scoredSims q embs = some sims := hsims
    rw [similaritySearchRanked, if_neg hlen0, hsims']
  · rw [List.length_map, List.length_take, hol, hsimslen]
  · intro hk hdl
    have htake : (List.insertionSort scoreGE sims).take k = List.insertionSort scoreGE sims :=
      List.take_of_length_le (by rw [hol, hsimslen]; exact hk)
    rw [htake]
    have hmm : (List.insertionSort scoreGE sims).map (fun p => docs.getD p.1 default) =
        ((List.insertionSort scoreGE sims).map Prod.fst).map (fun i => docs.getD i default) := by
      rw [List.map_map]
      rfl
    rw [hmm]
    have hperm : List.Perm ((List.insertionSort scoreGE sims).map Prod.fst)
        (List.range embs.length) := by
      rw [← hfst]
      exact (List.perm_insertionSort scoreGE sims).map Prod.fst
    calc List.Perm (((List.insertionSort scoreGE sims).map Prod.fst).map
            (fun i => docs.getD i default))
          ((List.range embs.length).map (fun i => docs.getD i default)) :=
        hperm.map _
      _ = _ := by
        rw [← hdl, map_getD_range]

/-- C3, witness: the theorem applied to a concrete two-chunk index with
`k = 5` exceeding the chunk count. -/
theorem C3_similaritySearch_witness :
    (([[(1 : ℝ), 0], [0, 1]] : List (List ℝ)) ≠ [] ∧
      ∀ e ∈ ([[(1 : ℝ), 0], [0, 1]] : List (List ℝ)),
        e.length = ([(1 : ℝ), 0] : List ℝ).length) ∧
    ∃ sims : List (Nat × ℝ),
      scoredSims [(1 : ℝ), 0] [[(1 : ℝ), 0], [0, 1]] = some sims ∧
      similaritySearchRanked [⟨"a".toList, 1⟩, ⟨"b".toList, 2⟩]
          [[(1 : ℝ), 0], [0, 1]] [(1 : ℝ), 0] 5 =
        .ok (((List.insertionSort scoreGE sims).take 5).map
          (fun p => ([⟨"a".toList, 1⟩, ⟨"b".toList, 2⟩] : List ChunkDoc).getD p.1 default)) ∧
      (List.insertionSort scoreGE sims).Pairwise lexBefore ∧
      (((List.insertionSort scoreGE sims).take 5).map
        (fun p => ([⟨"a".toList, 1⟩, ⟨"b".toList, 2⟩] : List ChunkDoc).getD p.1 default)).length
          = min 5 2 ∧
      (2 ≤ 5 → (2 : Nat) = 2 →
        List.Perm
          (((List.insertionSort scoreGE sims).take 5).map
            (fun p => ([⟨"a".toList, 1⟩, ⟨"b".toList, 2⟩] : List ChunkDoc).getD p.1 default))
          [⟨"a".toList, 1⟩, ⟨"b".toList, 2⟩]) := by
  constructor
  · exact ⟨by simp, by intro e he; rcases List.mem_cons.mp he with rfl | he' <;> simp_all⟩
  · have h := C3_similaritySearch_ordering [⟨"a".toList, 1⟩, ⟨"b".toList, 2⟩]
      [[(1 : ℝ), 0], [0, 1]] [(1 : ℝ), 0] 5 (by simp)
      (by intro e he; rcases List.mem_cons.mp he with rfl | he' <;> simp_all)
    obtain ⟨sims, h1, h2, h3, h4, h5⟩ := h
    exact ⟨sims, h1, h2, h3, h4, fun _ _ => h5 (by norm_num) rfl⟩

/-! ## C6 — fail-fast on missing Voyage credentials -/

theorem getDocument_pageContents_pos (store : Store) (id : String)
    (d : StoredDoc) (h : getDocument store id = some d) :
    d.pageContents.length ≠ 0 := by
  rw [getDocument] at h
  split at h
  · exact absurd h (by simp)
  · cases hf : store.find? (fun p => p.1 = id) with
    | none => rw [hf] at h; simp at h
    | some p =>
      rw [hf] at h
      have h' : (if p.2.pageContents.length = 0 then none else some p.2) = some d := h
      by_cases hpz : p.2.pageContents.length = 0
      · rw [if_pos hpz] at h'; simp at h'
      · rw [if_neg hpz] at h'
        simp only [Option.some.injEq] at h'
        subst h'
        exact hpz

/-- C6: for an Anthropic-family request whose configuration carries no
Voyage key (and whose session storage holds none either), the handler
returns the missing-embedding-credentials 400 response with an empty
network-call trace: no embedding or generation vendor is contacted. -/
theorem C6_missing_voyage_key_fail_fast (env : Env) (docId : String)
    (message : Str) (cfg : ApiKeyConfig) (document : StoredDoc)
    (hdid : docId ≠ "") (hmsg : message ≠ [])
    (hprov : cfg.provider = .anthropic)
    (hcfg : cfg.voyageApiKey = none ∨ cfg.voyageApiKey = some [])
    (hsess : env.session "apiKey_voyage" = none ∨
      env.session "apiKey_voyage" = some [])
    (hdoc : getDocument env.store docId = some document)
    (hchunks : chunkDocs env.splitPage document.pageContents ≠ []) :
    postChat env ⟨some docId, some message, some cfg⟩ =
      (.err 400 "Voyage AI API key is required for Anthropic provider", []) := by
  have hpc : document.pageContents.length ≠ 0 :=
    getDocument_pageContents_pos env.store docId document hdoc
  have hlen : ¬ (chunkDocs env.splitPage document.pageContents).length = 0 := by
    simpa [List.length_eq_zero] using hchunks
  have hgk : getApiKey env.session "voyage" = none := by
    have hcat : ("apiKey_" ++ "voyage" : String) = "apiKey_voyage" := rfl
    rw [getApiKey, hcat]
    rcases hsess with h | h <;> rw [h] <;> rfl
  rcases hcfg with hcfg | hcfg <;>
    simp [postChat, postEmbed, hdid, hmsg, hdoc, hpc, hlen, hprov, hcfg, hgk]

/-- The stored document of the C6 witness environment. -/
def c6Doc : StoredDoc := ⟨"d1", "a.pdf", [], ["hello".toList], 1, ""⟩

/-- The C6 witness environment: one stored document, empty session storage,
identity-ish splitter, offline network oracles. -/
def c6Env : Env where
  store := [("d1", c6Doc)]
  session := fun _ => none
  splitPage := fun s => [s]
  openaiEmbedDocs := fun _ => .error "offline"
  openaiEmbedQuery := fun _ => .error "offline"
  voyageFetch := fun _ => .error "offline"
  invoke := fun _ => .error "offline"

/-- C6, witness: the theorem applied to the concrete environment and an
Anthropic request with no Voyage key anywhere. -/
theorem C6_missing_voyage_key_witness :
    getDocument c6Env.store "d1" = some c6Doc ∧
    chunkDocs c6Env.splitPage c6Doc.pageContents ≠ [] ∧
    c6Env.session "apiKey_voyage" = none ∧
    postChat c6Env ⟨some "d1", some "hi".toList, some ⟨.anthropic, "k", none, none⟩⟩ =
      (.err 400 "Voyage AI API key is required for Anthropic provider", []) :=
  ⟨by decide, by decide, rfl,
   C6_missing_voyage_key_fail_fast c6Env "d1" "hi".toList
     ⟨.anthropic, "k", none, none⟩ c6Doc (by decide) (by decide) rfl
     (Or.inl rfl) (Or.inl rfl) (by decide) (by decide)⟩

/-! ## C9 — not-found vs empty-document reporting -/

/-- A stored document whose page-content list is empty. -/
def c9EmptyDoc : StoredDoc := ⟨"d2", "b.pdf", [], [], 0, ""⟩

/-- A stored document whose only page is empty (so chunking yields nothing). -/
def c9BlankPageDoc : StoredDoc := ⟨"d3", "c.pdf", [], [[]], 1, ""⟩

/-- The C9 environment: a store holding both problematic documents. -/
def c9Env : Env where
  store := [("d2", c9EmptyDoc), ("d3", c9BlankPageDoc)]
  session := fun _ => none
  splitPage := fun s => [s]
  openaiEmbedDocs := fun _ => .error "offline"
  openaiEmbedQuery := fun _ => .error "offline"
  voyageFetch := fun _ => .error "offline"
  invoke := fun _ => .error "offline"

/-- C9, counterexample: the id `d2` is present in the store but its document
has an empty page-content list, and the handler reports the *not-found*
error for it (the claim says such a request never yields the not-found
error). -/
theorem C9_emptyDocument_counterexample :
    c9Env.store.map Prod.fst = ["d2", "d3"] ∧
    (List.find? (fun p => p.1 = "d2") c9Env.store).isSome ∧
    c9EmptyDoc.pageContents = [] ∧
    postChat c9Env ⟨some "d2", some "q".toList, some ⟨.openai, "k", none, none⟩⟩ =
      (.err 404 "Document not found", []) := by
  refine ⟨rfl, by decide, rfl, ?_⟩
  rfl

/-- C9, amended: an absent id yields the not-found error; a present id whose
document has an *empty page-content list* is also reported as not-found
(`getDocument` filters such documents, so the route's distinct
empty-document response is unreachable through the store); a present id
whose pages exist but produce no chunks yields the distinct
document-processing error, never the not-found error. -/
theorem C9_error_reporting_amended (env : Env) (docId : String)
    (message : Str) (cfg : ApiKeyConfig)
    (hdid : docId ≠ "") (hmsg : message ≠ []) :
    (env.store.find? (fun p => p.1 = docId) = none →
      postChat env ⟨some docId, some message, some cfg⟩ =
        (.err 404 "Document not found", [])) ∧
    (∀ p, env.store.find? (fun p => p.1 = docId) = some p →
      p.2.pageContents.length = 0 →
      postChat env ⟨some docId, some message, some cfg⟩ =
        (.err 404 "Document not found", [])) ∧
    (∀ p, env.store.find? (fun p => p.1 = docId) = some p →
      p.2.pageContents.length ≠ 0 →
      chunkDocs env.splitPage p.2.pageContents = [] →
      postChat env ⟨some docId, some message, some cfg⟩ =
        (.err 500 "Failed to process document content", [])) := by
  refine ⟨?_, ?_, ?_⟩
  · intro hf
    have hgd : getDocument env.store docId = none := by
      rw [getDocument, if_neg hdid, hf]
    simp [postChat, hdid, hmsg, hgd]
  · intro p hf hpz
    have hgd : getDocument env.store docId = none := by
      rw [getDocument, if_neg hdid, hf]
      exact if_pos hpz
    simp [postChat, hdid, hmsg, hgd]
  · intro p hf hpz hch
    have hgd : getDocument env.store docId = some p.2 := by
      rw [getDocument, if_neg hdid, hf]
      exact if_neg hpz
    have hlen : (chunkDocs env.splitPage p.2.pageContents).length = 0 := by
      rw [hch]
      rfl
    simp [postChat, hdid, hmsg, hgd, hpz, hlen]

/-- C9, witness: the amended theorem applied to the concrete store — an
unknown id `zz`, the empty-paged `d2`, and the blank-paged `d3`. -/
theorem C9_error_reporting_witness :
    postChat c9Env ⟨some "zz", some "q".toList, some ⟨.openai, "k", none, none⟩⟩ =
      (.err 404 "Document not found", []) ∧
    postChat c9Env ⟨some "d2", some "q".toList, some ⟨.openai, "k", none, none⟩⟩ =
      (.err 404 "Document not found", []) ∧
    postChat c9Env ⟨some "d3", some "q".toList, some ⟨.openai, "k", none, none⟩⟩ =
      (.err 500 "Failed to process document content", []) :=
  ⟨(C9_error_reporting_amended c9Env "zz" "q".toList ⟨.openai, "k", none, none⟩
      (by decide) (by decide)).1 (by decide),
   (C9_error_reporting_amended c9Env "d2" "q".toList ⟨.openai, "k", none, none⟩
      (by decide) (by decide)).2.1 ("d2", c9EmptyDoc) (by decide) (by decide),
   (C9_error_reporting_amended c9Env "d3" "q".toList ⟨.openai, "k", none, none⟩
      (by decide) (by decide)).2.2 ("d3", c9BlankPageDoc) (by decide) (by decide) (by decide)⟩

/-! ## C5 — context-length error parsing -/

theorem litMatch_true_append (lit r : Str) :
    litMatch true lit (lit ++ r) = some r := by
  induction lit with
  | nil => rfl
  | cons c ls ih =>
    rw [List.cons_append, litMatch]
    simp only [if_pos rfl, if_true]
    exact ih

theorem span_digits (d : Str) (c : Char) (r : Str)
    (hd : ∀ x ∈ d, Char.isDigit x) (hc : ¬ Char.isDigit c) :
    (d ++ c :: r).takeWhile Char.isDigit = d ∧
    (d ++ c :: r).dropWhile Char.isDigit = c :: r := by
  induction d with
  | nil =>
    simp only [List.nil_append, List.takeWhile_cons, List.dropWhile_cons]
    rw [if_neg (by simpa using hc), if_neg (by simpa using hc)]
    exact ⟨rfl, rfl⟩
  | cons a t ih =>
    have ha : Char.isDigit a := hd a (List.mem_cons_self _ _)
    have ⟨h1, h2⟩ := ih (fun x hx => hd x (List.mem_cons_of_mem _ hx))
    simp only [List.cons_append, List.takeWhile_cons, List.dropWhile_cons]
    rw [if_pos (by simpa using ha), if_pos (by simpa using ha), h1, h2]
    exact ⟨rfl, rfl⟩

theorem tryResulted_eq (l r : Str) (h : litMatch true ctxLit2 l = some r) :
    tryResulted l =
      (if r.takeWhile Char.isDigit = [] then none
       else
         match litMatch true ctxLitTok (r.dropWhile Char.isDigit) with
         | none => none
         | some _ => some (digitsToNat (r.takeWhile Char.isDigit))) := by
  rw [tryResulted, h]

theorem tryResulted_none_of_lit (l : Str)
    (h : litMatch true ctxLit2 l = none) : tryResulted l = none := by
  rw [tryResulted, h]

theorem tryResulted_at (d2 suf : Str) (hne : d2 ≠ [])
    (hdig : ∀ x ∈ d2, Char.isDigit x) :
    tryResulted (ctxLit2 ++ (d2 ++ (ctxLitTok ++ suf))) = some (digitsToNat d2) := by
  have hsp : ¬ Char.isDigit ' ' := by decide
  have hshape : ctxLitTok ++ suf = ' ' :: ("tokens".toList ++ suf) := rfl
  have hspan := span_digits d2 ' ' ("tokens".toList ++ suf) hdig hsp
  have hlit := litMatch_true_append ctxLit2 (d2 ++ (ctxLitTok ++ suf))
  have htok : litMatch true ctxLitTok (' ' :: ("tokens".toList ++ suf)) = some suf :=
    litMatch_true_append ctxLitTok suf
  rw [tryResulted_eq _ _ hlit, hshape, hspan.1, hspan.2, if_neg hne, htok]

theorem findGreedy_none (l : Str)
    (h : ∀ p, p ≤ l.length → tryResulted (l.drop p) = none) :
    findGreedy l = none := by
  induction l with
  | nil =>
    rw [findGreedy]
    simpa using h 0 (by omega)
  | cons c t ih =>
    rw [findGreedy]
    by_cases hc : isDotChar c
    · rw [if_pos hc]
      have ht : findGreedy t = none := by
        apply ih
        intro p hp
        have := h (p + 1) (by simpa using Nat.succ_le_succ hp)
        simpa [List.drop_succ_cons] using this
      rw [ht]
      simpa using h 0 (by omega)
    · rw [if_neg hc]
      simpa using h 0 (by omega)

theorem findGreedy_head (l : Str) (v : Nat) (h0 : tryResulted l = some v)
    (hafter : ∀ p, 0 < p → p ≤ l.length → tryResulted (l.drop p) = none) :
    findGreedy l = some v := by
  cases l with
  | nil =>
    rw [findGreedy]
    exact h0
  | cons c t =>
    rw [findGreedy]
    by_cases hc : isDotChar c
    · rw [if_pos hc]
      have ht : findGreedy t = none := by
        apply findGreedy_none
        intro p hp
        have := hafter (p + 1) (by omega) (by simpa using Nat.succ_le_succ hp)
        simpa [List.drop_succ_cons] using this
      rw [ht]
      exact h0
    · rw [if_neg hc]
      exact h0

theorem findGreedy_append (mid rest : Str) (v : Nat)
    (hdot : ∀ c ∈ mid, isDotChar c)
    (hres : tryResulted rest = some v)
    (hafter : ∀ p, 0 < p → p ≤ rest.length → tryResulted (rest.drop p) = none) :
    findGreedy (mid ++ rest) = some v := by
  induction mid with
  | nil => simpa using findGreedy_head rest v hres hafter
  | cons c m ih =>
    rw [List.cons_append, findGreedy,
      if_pos (hdot c (List.mem_cons_self _ _)),
      ih (fun x hx => hdot x (List.mem_cons_of_mem _ hx))]

theorem tryCtxHead_eq (l r : Str) (h : litMatch true ctxLit1 l = some r) :
    tryCtxHead l =
      (if r.takeWhile Char.isDigit = [] then none
       else
         match litMatch true ctxLitTok (r.dropWhile Char.isDigit) with
         | none => none
         | some r3 =>
           match findGreedy r3 with
           | none => none
           | some m => some (digitsToNat (r.takeWhile Char.isDigit), m)) := by
  rw [tryCtxHead, h]

theorem tryCtxHead_none_of_lit (l : Str)
    (h : litMatch true ctxLit1 l = none) : tryCtxHead l = none := by
  rw [tryCtxHead, h]

theorem tryCtxHead_at (d1 tail : Str) (m : Nat) (hne : d1 ≠ [])
    (hdig : ∀ x ∈ d1, Char.isDigit x)
    (hfg : findGreedy tail = some m) :
    tryCtxHead (ctxLit1 ++ (d1 ++ (ctxLitTok ++ tail))) =
      some (digitsToNat d1, m) := by
  have hsp : ¬ Char.isDigit ' ' := by decide
  have hshape : ctxLitTok ++ tail = ' ' :: ("tokens".toList ++ tail) := rfl
  have hspan := span_digits d1 ' ' ("tokens".toList ++ tail) hdig hsp
  have hlit := litMatch_true_append ctxLit1 (d1 ++ (ctxLitTok ++ tail))
  have htok : litMatch true ctxLitTok (' ' :: ("tokens".toList ++ tail)) = some tail :=
    litMatch_true_append ctxLitTok tail
  rw [tryCtxHead_eq _ _ hlit, hshape, hspan.1, hspan.2, if_neg hne, htok]
  show (match findGreedy tail with
        | none => none
        | some m => some (digitsToNat d1, m)) = some (digitsToNat d1, m)
  rw [hfg]

theorem parseCtxAux_append (pre rest : Str) (v : Nat × Nat)
    (hpre : ∀ i, i < pre.length → tryCtxHead ((pre ++ rest).drop i) = none)
    (hhit : tryCtxHead rest = some v) :
    parseCtxAux (pre ++ rest) = some v := by
  induction pre with
  | nil =>
    cases rest with
    | nil =>
      rw [List.nil_append, parseCtxAux]
      exact hhit
    | cons c t =>
      rw [List.nil_append, parseCtxAux, hhit]
  | cons c p ih =>
    have h0 : tryCtxHead (c :: (p ++ rest)) = none := by
      simpa using hpre 0 (by simp)
    rw [List.cons_append, parseCtxAux, h0]
    apply ih
    intro i hi
    have := hpre (i + 1) (by simpa using Nat.succ_le_succ hi)
    simpa [List.drop_succ_cons] using this

theorem litMatch_true_sound (lit : Str) :
    ∀ (s r : Str), litMatch true lit s = some r →
      ∃ x, s = x ++ r ∧ lc x = lc lit := by
  induction lit with
  | nil =>
    intro s r h
    rw [litMatch] at h
    simp only [Option.some.injEq] at h
    exact ⟨[], by simp [h], rfl⟩
  | cons c ls ih =>
    intro s r h
    cases s with
    | nil => rw [litMatch] at h; simp at h
    | cons d ds =>
      rw [litMatch] at h
      by_cases hdc : d.toLower = c.toLower
      · rw [if_pos (by simpa using hdc)] at h
        obtain ⟨x, hx, hlx⟩ := ih ds r h
        refine ⟨d :: x, by simp [hx], ?_⟩
        simp [lc] at hlx ⊢
        exact ⟨hdc, hlx⟩
      · rw [if_neg (by simpa using hdc)] at h
        simp at h

theorem tryResulted_sound (l : Str) (m : Nat) (h : tryResulted l = some m) :
    ∃ b d2 e rest, l = b ++ (d2 ++ (e ++ rest)) ∧
      lc b = lc ctxLit2 ∧ d2 ≠ [] ∧ (∀ x ∈ d2, Char.isDigit x) ∧
      lc e = lc ctxLitTok ∧ m = digitsToNat d2 := by
  cases hl : litMatch true ctxLit2 l with
  | none => rw [tryResulted_none_of_lit l hl] at h; simp at h
  | some r =>
    rw [tryResulted_eq l r hl] at h
    by_cases hds : r.takeWhile Char.isDigit = []
    · rw [if_pos hds] at h; simp at h
    · rw [if_neg hds] at h
      cases htok : litMatch true ctxLitTok (r.dropWhile Char.isDigit) with
      | none => rw [htok] at h; simp at h
      | some r2 =>
        rw [htok] at h
        have hm : m = digitsToNat (r.takeWhile Char.isDigit) := by
          have h' : some (digitsToNat (r.takeWhile Char.isDigit)) = some m := h
          simpa using h'.symm
        obtain ⟨b, hbl, hb⟩ := litMatch_true_sound ctxLit2 l r hl
        obtain ⟨e, hel, he⟩ :=
          litMatch_true_sound ctxLitTok (r.dropWhile Char.isDigit) r2 htok
        have hr : r = r.takeWhile Char.isDigit ++ (e ++ r2) := by
          rw [← hel, List.takeWhile_append_dropWhile]
        refine ⟨b, r.takeWhile Char.isDigit, e, r2, ?_, hb, hds,
          fun x hx => List.mem_takeWhile_imp hx, he, hm⟩
        rw [hbl, ← hr]

theorem findGreedy_sound (l : Str) (v : Nat) (h : findGreedy l = some v) :
    ∃ mid rest, l = mid ++ rest ∧ (∀ c ∈ mid, isDotChar c) ∧
      tryResulted rest = some v := by
  induction l with
  | nil =>
    rw [findGreedy] at h
    exact ⟨[], [], rfl, by simp, h⟩
  | cons c t ih =>
    rw [findGreedy] at h
    by_cases hc : isDotChar c
    · rw [if_pos hc] at h
      cases hfg : findGreedy t with
      | some w =>
        rw [hfg] at h
        have hw : w = v := by simpa using h
        subst hw
        obtain ⟨mid, rest, hl, hdot, hres⟩ := ih hfg
        refine ⟨c :: mid, rest, by simp [hl], ?_, hres⟩
        intro x hx
        rcases List.mem_cons.mp hx with rfl | hx'
        · exact hc
        · exact hdot x hx'
      | none =>
        rw [hfg] at h
        exact ⟨[], c :: t, rfl, by simp, h⟩
    · rw [if_neg hc] at h
      exact ⟨[], c :: t, rfl, by simp, h⟩

theorem tryCtxHead_sound (l : Str) (n m : Nat)
    (h : tryCtxHead l = some (n, m)) :
    ∃ a d1 b tail, l = a ++ (d1 ++ (b ++ tail)) ∧
      lc a = lc ctxLit1 ∧ d1 ≠ [] ∧ (∀ x ∈ d1, Char.isDigit x) ∧
      lc b = lc ctxLitTok ∧ findGreedy tail = some m ∧ n = digitsToNat d1 := by
  cases hl : litMatch true ctxLit1 l with
  | none => rw [tryCtxHead_none_of_lit l hl] at h; simp at h
  | some r =>
    rw [tryCtxHead_eq l r hl] at h
    by_cases hds : r.takeWhile Char.isDigit = []
    · rw [if_pos hds] at h; simp at h
    · rw [if_neg hds] at h
      cases htok : litMatch true ctxLitTok (r.dropWhile Char.isDigit) with
      | none => rw [htok] at h; simp at h
      | some r3 =>
        rw [htok] at h
        have h2 : (match findGreedy r3 with
            | none => none
            | some m => some (digitsToNat (r.takeWhile Char.isDigit), m)) =
            some (n, m) := h
        cases hfg : findGreedy r3 with
        | none => rw [hfg] at h2; simp at h2
        | some w =>
          rw [hfg] at h2
          have hnm : n = digitsToNat (r.takeWhile Char.isDigit) ∧ w = m := by
            have h' : some (digitsToNat (r.takeWhile Char.isDigit), w) = some (n, m) := h2
            simp only [Option.some.injEq, Prod.mk.injEq] at h'
            exact ⟨h'.1.symm, h'.2⟩
          obtain ⟨a, hal, ha⟩ := litMatch_true_sound ctxLit1 l r hl
          obtain ⟨b, hbl, hb⟩ :=
            litMatch_true_sound ctxLitTok (r.dropWhile Char.isDigit) r3 htok
          have hr : r = r.takeWhile Char.isDigit ++ (b ++ r3) := by
            rw [← hbl, List.takeWhile_append_dropWhile]
          refine ⟨a, r.takeWhile Char.isDigit, b, r3, ?_, ha, hds,
            fun x hx => List.mem_takeWhile_imp hx, hb, hnm.2 ▸ hfg, hnm.1⟩
          rw [hal, ← hr]

theorem parseCtxAux_sound (s : Str) (v : Nat × Nat)
    (h : parseCtxAux s = some v) :
    ∃ pre rest, s = pre ++ rest ∧ tryCtxHead rest = some v := by
  induction s with
  | nil =>
    rw [parseCtxAux] at h
    exact ⟨[], [], rfl, h⟩
  | cons c t ih =>
    rw [parseCtxAux] at h
    cases hh : tryCtxHead (c :: t) with
    | some w =>
      rw [hh] at h
      have hw : w = v := by simpa using h
      exact ⟨[], c :: t, rfl, hw ▸ hh⟩
    | none =>
      rw [hh] at h
      obtain ⟨pre, rest, hs, hhit⟩ := ih h
      exact ⟨c :: pre, rest, by simp [hs], hhit⟩

/-- The string `s` contains (case-insensitively) the context-length pattern
`maximum context length is <d1> tokens.*resulted in <d2> tokens`, with the
`.*` part free of line terminators, capturing `n` and `m`. -/
def containsCtxPattern (s : Str) (n m : Nat) : Prop :=
  ∃ pre a d1 b mid c2 d2 e suf : Str,
    s = pre ++ (a ++ (d1 ++ (b ++ (mid ++ (c2 ++ (d2 ++ (e ++ suf))))))) ∧
    lc a = lc ctxLit1 ∧ d1 ≠ [] ∧ (∀ x ∈ d1, Char.isDigit x) ∧
    lc b = lc ctxLitTok ∧
    (∀ x ∈ mid, isDotChar x) ∧
    lc c2 = lc ctxLit2 ∧ d2 ≠ [] ∧ (∀ x ∈ d2, Char.isDigit x) ∧
    lc e = lc ctxLitTok ∧
    n = digitsToNat d1 ∧ m = digitsToNat d2

/-- C5: (i) a string built as `pre · maximum context length is <d1> tokens ·
mid · resulted in <d2> tokens · suf` parses to exactly
`{maxTokens = d1, usedTokens = d2}` whenever the leading literal does not
also occur inside `pre` (leftmost match), `mid` is free of line terminators
(`.*`), and no later start position inside the `resulted in …` tail also
matches (greedy `.*` takes the rightmost match); (ii) conversely, any string
on which the parser returns a value contains the pattern — so a string not
containing the pattern yields no context-length error. -/
theorem C5_parseContextLengthError_spec :
    (∀ pre d1 mid d2 suf : Str,
      (∀ i, i < pre.length →
        litMatch true ctxLit1
          ((pre ++ (ctxLit1 ++ (d1 ++ (ctxLitTok ++
            (mid ++ (ctxLit2 ++ (d2 ++ (ctxLitTok ++ suf)))))))).drop i) = none) →
      d1 ≠ [] → (∀ x ∈ d1, Char.isDigit x) →
      d2 ≠ [] → (∀ x ∈ d2, Char.isDigit x) →
      (∀ c ∈ mid, isDotChar c) →
      (∀ p, 0 < p → p ≤ (ctxLit2 ++ (d2 ++ (ctxLitTok ++ suf))).length →
        tryResulted ((ctxLit2 ++ (d2 ++ (ctxLitTok ++ suf))).drop p) = none) →
      parseContextLengthError
          (pre ++ (ctxLit1 ++ (d1 ++ (ctxLitTok ++
            (mid ++ (ctxLit2 ++ (d2 ++ (ctxLitTok ++ suf)))))))) =
        some (digitsToNat d1, digitsToNat d2)) ∧
    (∀ (s : Str) (n m : Nat),
      parseContextLengthError s = some (n, m) → containsCtxPattern s n m) := by
  constructor
  · intro pre d1 mid d2 suf hpre hd1 hd1d hd2 hd2d hmid hafter
    have hres : tryResulted (ctxLit2 ++ (d2 ++ (ctxLitTok ++ suf))) =
        some (digitsToNat d2) := tryResulted_at d2 suf hd2 hd2d
    have hfg : findGreedy (mid ++ (ctxLit2 ++ (d2 ++ (ctxLitTok ++ suf)))) =
        some (digitsToNat d2) :=
      findGreedy_append mid _ _ hmid hres hafter
    have hhit : tryCtxHead (ctxLit1 ++ (d1 ++ (ctxLitTok ++
        (mid ++ (ctxLit2 ++ (d2 ++ (ctxLitTok ++ suf))))))) =
        some (digitsToNat d1, digitsToNat d2) :=
      tryCtxHead_at d1 _ _ hd1 hd1d hfg
    have hpre' : ∀ i, i < pre.length →
        tryCtxHead ((pre ++ (ctxLit1 ++ (d1 ++ (ctxLitTok ++
          (mid ++ (ctxLit2 ++ (d2 ++ (ctxLitTok ++ suf)))))))).drop i) = none :=
      fun i hi => tryCtxHead_none_of_lit _ (hpre i hi)
    rw [parseContextLengthError]
    exact parseCtxAux_append pre _ _ hpre' hhit
  · intro s n m h
    rw [parseContextLengthError] at h
    obtain ⟨pre, rest, hs, hhit⟩ := parseCtxAux_sound s (n, m) h
    obtain ⟨a, d1, b, tail, hrest, ha, hd1, hd1d, hb, hfg, hn⟩ :=
      tryCtxHead_sound rest n m hhit
    obtain ⟨mid, rest2, htail, hmid, hres⟩ := findGreedy_sound tail _ hfg
    obtain ⟨c2, d2, e, suf, hrest2, hc2, hd2, hd2d, he, hm⟩ :=
      tryResulted_sound rest2 _ hres
    refine ⟨pre, a, d1, b, mid, c2, d2, e, suf, ?_, ha, hd1, hd1d, hb, hmid,
      hc2, hd2, hd2d, he, hn, hm⟩
    rw [hs, hrest, htail, hrest2]

/-- The Scenario E error string. -/
def c5Str : Str :=
  "maximum context length is 8192 tokens... resulted in 16614 tokens".toList

/-- C5, witness: the theorem applied to the Scenario E string, extracting
`{maxTokens := 8192, usedTokens := 16614}` exactly, and the soundness half
applied to that result. -/
theorem C5_parseContextLengthError_witness :
    parseContextLengthError c5Str = some (8192, 16614) ∧
    containsCtxPattern c5Str 8192 16614 := by
  have hb : ∀ p, p < 25 → 0 < p →
      tryResulted ((ctxLit2 ++ ("16614".toList ++ (ctxLitTok ++ ([] : Str)))).drop p)
        = none := by
    decide
  have h := C5_parseContextLengthError_spec.1 [] "8192".toList "... ".toList
    "16614".toList []
    (by intro i hi; simp at hi)
    (by decide) (by decide) (by decide) (by decide) (by decide)
    (fun p hp hpl => hb p (by
      have hlen : (ctxLit2 ++ ("16614".toList ++ (ctxLitTok ++ ([] : Str)))).length = 24 :=
        rfl
      omega) hp)
  constructor
  · exact h
  · exact C5_parseContextLengthError_spec.2 c5Str 8192 16614 (by exact h)
